import Mathlib

/-!
Verification of the flowbase flow-based-programming engine.

This file gives a shallow embedding, in Lean, of the parts of the
flowbase/flowbase Go code base that the specification talks about:

* the port connection and close-cascade protocol (`port.go`),
* the `Sink` drain loop (`sink.go`),
* the `Network` topology repair, driver election and scheduling
  (`network.go` and the `Network` iteration of the same design),
* the upstream-closure computation used for partial runs,
* `FileIP` tags and the `FinalizePath` retry loop (`ip.go` and the
  scipipe-iteration IP file).

Go maps keyed by strings are embedded as association lists with
distinct keys, Go channels as explicit buffer lists plus a closed flag,
and fatal failures (`Failf`, which terminates the process) as `none` /
`.error` / dedicated `fatal` constructors.  Concurrency enters the code
base only through the per-InPort lock in `CloseConnection`; the lock
makes every interleaving of `CloseConnection` calls equivalent to some
sequential order, so sequences of calls are embedded as folds.
-/

namespace Flowbase

/-! ### Close-cascade state of one `InPort` (src/port.go)

`InPort.CloseConnection(rptName)` deletes `rptName` from the in-port's
remote registry and closes the channel when the registry has become
empty.  `close` on an already-closed Go channel panics, which we embed
by recording the number of `close` operations performed.  The channel
itself is a buffer of values; `InPort.Send` pushes into it and is only
legal while the channel is open. -/

/-- State of one `InPort` as far as the close cascade is concerned:
the names registered in `RemotePorts`, the channel buffer, whether
`close(pt.Chan)` has happened, and how many times it has happened. -/
structure InPortClose where
  remotePorts : List String
  chanBuf : List Nat
  chanClosed : Bool
  closeCount : Nat
  deriving Repr, DecidableEq

/-- `InPort.CloseConnection` (src/port.go lines 109-116): delete the
caller from the remote registry, and close the channel if the registry
is now empty (`len(pt.RemotePorts) == 0`). -/
def InPortClose.closeConnection (pt : InPortClose) (rptName : String) : InPortClose :=
  let remotes := pt.remotePorts.erase rptName
  if remotes.length = 0 then
    { pt with remotePorts := remotes, chanClosed := true, closeCount := pt.closeCount + 1 }
  else
    { pt with remotePorts := remotes }

/-- `InPort.Send` (src/port.go line 98): `pt.Chan <- ip`.  Sending on a
closed Go channel panics, embedded as `none`. -/
def InPortClose.send (pt : InPortClose) (v : Nat) : Option InPortClose :=
  if pt.chanClosed then none
  else some { pt with chanBuf := pt.chanBuf ++ [v] }

/-- A sequence of `CloseConnection` calls, one per calling `OutPort`
(this is what `OutPort.Close`, src/port.go lines 224-230, performs on
each of its remote in-ports).  The per-port `closeLock` serialises
concurrent calls, so a fold over some arrival order is faithful. -/
def InPortClose.closeAll (pt : InPortClose) (rptNames : List String) : InPortClose :=
  rptNames.foldl InPortClose.closeConnection pt

lemma closeAll_spec (calls : List String) :
    ∀ (pt : InPortClose), pt.remotePorts.Nodup → calls.Nodup →
    (∀ c ∈ calls, c ∈ pt.remotePorts) →
    pt.chanClosed = false → pt.closeCount = 0 →
    (calls.length < pt.remotePorts.length →
      (pt.closeAll calls).chanClosed = false ∧ (pt.closeAll calls).closeCount = 0 ∧
      (pt.closeAll calls).remotePorts.length = pt.remotePorts.length - calls.length) ∧
    (calls.length = pt.remotePorts.length → 0 < pt.remotePorts.length →
      (pt.closeAll calls).chanClosed = true ∧ (pt.closeAll calls).closeCount = 1) := by
  induction calls with
  | nil =>
    intro pt _ _ _ hopen hcnt
    refine ⟨fun _ => ⟨hopen, hcnt, by simp [InPortClose.closeAll]⟩, fun h0 hpos => ?_⟩
    simp at h0
    omega
  | cons c rest ih =>
    intro pt hnd hcnd hsub hopen hcnt
    have hc : c ∈ pt.remotePorts := hsub c (List.mem_cons_self c rest)
    have hlen : (pt.remotePorts.erase c).length = pt.remotePorts.length - 1 :=
      List.length_erase_of_mem hc
    have hpos : 0 < pt.remotePorts.length := List.length_pos_of_mem hc
    have hnd' : (pt.remotePorts.erase c).Nodup := hnd.erase c
    have hcnd' : rest.Nodup := (List.nodup_cons.mp hcnd).2
    have hcnotin : c ∉ rest := (List.nodup_cons.mp hcnd).1
    have hsub' : ∀ x ∈ rest, x ∈ pt.remotePorts.erase c := by
      intro x hx
      have hxne : x ≠ c := fun h => hcnotin (h ▸ hx)
      exact (List.mem_erase_of_ne hxne).mpr (hsub x (List.mem_cons_of_mem c hx))
    have hstep : pt.closeAll (c :: rest) = (pt.closeConnection c).closeAll rest := rfl
    by_cases h1 : (pt.remotePorts.erase c).length = 0
    · -- `c` was the last registered out-port: the channel closes here.
      have hm1 : pt.remotePorts.length = 1 := by omega
      have hrest : rest = [] := by
        cases rest with
        | nil => rfl
        | cons x xs =>
          exfalso
          have := hsub' x (List.mem_cons_self x xs)
          have := List.length_pos_of_mem this
          omega
      have hpt1 : pt.closeConnection c =
          { pt with remotePorts := pt.remotePorts.erase c, chanClosed := true,
                    closeCount := pt.closeCount + 1 } := by
        simp [InPortClose.closeConnection, h1]
      subst hrest
      constructor
      · intro hlt
        simp at hlt
        omega
      · intro _ _
        rw [hstep, hpt1]
        simp [InPortClose.closeAll, hcnt]
    · -- at least one out-port remains registered: the channel stays open.
      have hpt1 : pt.closeConnection c =
          { pt with remotePorts := pt.remotePorts.erase c } := by
        simp [InPortClose.closeConnection, h1]
      have hih := ih (pt.closeConnection c)
        (by rw [hpt1]; exact hnd') (by exact hcnd')
        (by rw [hpt1]; exact hsub') (by rw [hpt1]; exact hopen) (by rw [hpt1]; exact hcnt)
      have hlen' : (pt.closeConnection c).remotePorts.length = pt.remotePorts.length - 1 := by
        rw [hpt1]; exact hlen
      constructor
      · intro hlt
        have := (hih.1 (by simp at hlt ⊢; omega))
        rw [hstep]
        refine ⟨this.1, this.2.1, ?_⟩
        rw [this.2.2, hlen']
        simp
        omega
      · intro heq hp
        have := hih.2 (by simp at heq; omega) (by omega)
        rw [hstep]
        exact this

/-- C1: an `InPort` whose remote registry holds `m` connected out-ports
closes its channel exactly once, and only on the `CloseConnection` call
of the last of the `m` out-ports: after any `m-1` distinct out-ports
have called `CloseConnection` the channel is still open (no `close` has
happened) and a `Send` still delivers; after all `m` have called, the
channel is closed and `close` ran exactly once. -/
theorem inPort_channel_closed_by_last_closeConnection
    (pt : InPortClose) (calls : List String)
    (hnd : pt.remotePorts.Nodup) (hm : 0 < pt.remotePorts.length)
    (hopen : pt.chanClosed = false) (hcnt : pt.closeCount = 0)
    (hcnd : calls.Nodup) (hsub : ∀ c ∈ calls, c ∈ pt.remotePorts) :
    (calls.length = pt.remotePorts.length - 1 →
      (pt.closeAll calls).chanClosed = false ∧ (pt.closeAll calls).closeCount = 0 ∧
      ∀ v : Nat, ((pt.closeAll calls).send v).isSome = true) ∧
    (calls.length = pt.remotePorts.length →
      (pt.closeAll calls).chanClosed = true ∧ (pt.closeAll calls).closeCount = 1) := by
  have h := closeAll_spec calls pt hnd hcnd hsub hopen hcnt
  constructor
  · intro hm1
    have hlt : calls.length < pt.remotePorts.length := by omega
    obtain ⟨h1, h2, _⟩ := h.1 hlt
    refine ⟨h1, h2, fun v => ?_⟩
    simp [InPortClose.send, h1]
  · intro heq
    exact h.2 heq hm

/-- Witness for C1 at a registry of three out-ports: after two distinct
closes the channel is open and delivers; after the third it is closed,
closed exactly once. -/
theorem inPort_channel_closed_by_last_closeConnection_witness :
    ((InPortClose.mk ["p1.out", "p2.out", "p3.out"] [] false 0).closeAll
        ["p1.out", "p2.out"]).chanClosed = false ∧
    (((InPortClose.mk ["p1.out", "p2.out", "p3.out"] [] false 0).closeAll
        ["p1.out", "p2.out"]).send 7).isSome = true ∧
    ((InPortClose.mk ["p1.out", "p2.out", "p3.out"] [] false 0).closeAll
        ["p1.out", "p2.out", "p3.out"]).chanClosed = true ∧
    ((InPortClose.mk ["p1.out", "p2.out", "p3.out"] [] false 0).closeAll
        ["p1.out", "p2.out", "p3.out"]).closeCount = 1 := by
  have h₁ := inPort_channel_closed_by_last_closeConnection
    (InPortClose.mk ["p1.out", "p2.out", "p3.out"] [] false 0) ["p1.out", "p2.out"]
    (by decide) (by decide) (by decide) (by decide) (by decide) (by decide)
  have h₂ := inPort_channel_closed_by_last_closeConnection
    (InPortClose.mk ["p1.out", "p2.out", "p3.out"] [] false 0)
    ["p1.out", "p2.out", "p3.out"]
    (by decide) (by decide) (by decide) (by decide) (by decide) (by decide)
  have ha := h₁.1 (by decide)
  have hb := h₂.2 (by decide)
  exact ⟨ha.1, ha.2.2 7, hb.1, hb.2⟩

/-! ### Ready flag versus remote registry (src/port.go)

`InPort.From` / `OutPort.To` register the remote on both sides and set
both ready flags; `Disconnect` removes one remote and clears the ready
flag only when the registry became empty; `InPort.CloseConnection`
deletes from the registry without touching the ready flag, and
`OutPort.Close` removes every remote, also without touching the ready
flag.  Fatal failures (duplicate registration, disconnecting an
unregistered remote, double close of the channel) are embedded as
`none`. -/

/-- One operation on an `InPort`, named by the remote out-port's
qualified name. -/
inductive InPortOp where
  | fromOut (rptName : String)
  | disconnect (rptName : String)
  | closeConnection (rptName : String)
  deriving Repr, DecidableEq

/-- One operation on an `OutPort`.  `close` is `OutPort.Close`, which
calls `CloseConnection` on every remote in-port and removes them all
from its own registry. -/
inductive OutPortOp where
  | toIn (rptName : String)
  | disconnect (rptName : String)
  | close
  deriving Repr, DecidableEq

/-- Whether an in-port operation is a `CloseConnection`. -/
def InPortOp.isCloseConn : InPortOp → Bool
  | .closeConnection _ => true
  | _ => false

/-- Whether an out-port operation is a `Close`. -/
def OutPortOp.isClose : OutPortOp → Bool
  | .close => true
  | _ => false

/-- Registry-and-flag state of an `InPort`. -/
structure InPortState where
  remotePorts : List String
  ready : Bool
  chanClosed : Bool
  deriving Repr, DecidableEq

/-- Registry-and-flag state of an `OutPort`. -/
structure OutPortState where
  remotePorts : List String
  ready : Bool
  deriving Repr, DecidableEq

/-- `NewInPort` (src/port.go lines 25-33): empty registry, `ready:
false`, channel open. -/
def newInPort : InPortState := ⟨[], false, false⟩

/-- `NewOutPort` (src/port.go lines 143-150): empty registry, `ready:
false`. -/
def newOutPort : OutPortState := ⟨[], false⟩

/-- Apply one operation to an `InPort`, following src/port.go:
`From` = `AddRemotePort` (fatal on duplicate) + `SetReady(true)`;
`Disconnect` = `removeRemotePort` (fatal when absent) + `SetReady(false)`
if the registry is now empty; `CloseConnection` = `delete` (no-op when
absent) + `close(pt.Chan)` (fatal when already closed) if the registry
is now empty. -/
def InPortState.applyOp (pt : InPortState) : InPortOp → Option InPortState
  | .fromOut n =>
    if pt.remotePorts.contains n then none
    else some { pt with remotePorts := pt.remotePorts ++ [n], ready := true }
  | .disconnect n =>
    if pt.remotePorts.contains n then
      some { pt with
             remotePorts := pt.remotePorts.erase n,
             ready := (if (pt.remotePorts.erase n).length = 0 then false else pt.ready) }
    else none
  | .closeConnection n =>
    if (pt.remotePorts.erase n).length = 0 then
      if pt.chanClosed then none
      else some { pt with remotePorts := pt.remotePorts.erase n, chanClosed := true }
    else some { pt with remotePorts := pt.remotePorts.erase n }

/-- Apply one operation to an `OutPort`, following src/port.go:
`To` = `AddRemotePort` (fatal on duplicate) + `SetReady(true)`;
`Disconnect` as for the in-port; `Close` removes every remote from the
registry (`removeRemotePort` per remote) and never touches `ready`. -/
def OutPortState.applyOp (pt : OutPortState) : OutPortOp → Option OutPortState
  | .toIn n =>
    if pt.remotePorts.contains n then none
    else some { pt with remotePorts := pt.remotePorts ++ [n], ready := true }
  | .disconnect n =>
    if pt.remotePorts.contains n then
      some { pt with
             remotePorts := pt.remotePorts.erase n,
             ready := (if (pt.remotePorts.erase n).length = 0 then false else pt.ready) }
    else none
  | .close => some { pt with remotePorts := [] }

/-- Run a sequence of operations on a fresh `InPort`; `none` as soon as
one operation hits a fatal failure. -/
def runInPortOps (ops : List InPortOp) : Option InPortState :=
  ops.foldl (fun s op => s.bind (fun pt => pt.applyOp op)) (some newInPort)

/-- Run a sequence of operations on a fresh `OutPort`. -/
def runOutPortOps (ops : List OutPortOp) : Option OutPortState :=
  ops.foldl (fun s op => s.bind (fun pt => pt.applyOp op)) (some newOutPort)

lemma foldl_bind_none {α σ : Type} (g : σ → α → Option σ) (l : List α) :
    l.foldl (fun s op => s.bind (fun pt => g pt op)) none = none := by
  induction l with
  | nil => rfl
  | cons x xs ih => simpa using ih

lemma inPort_inv_step (pt : InPortState) (op : InPortOp) (pt' : InPortState)
    (hop : op.isCloseConn = false)
    (hinv : pt.ready = !pt.remotePorts.isEmpty)
    (happ : pt.applyOp op = some pt') :
    pt'.ready = !pt'.remotePorts.isEmpty := by
  cases op with
  | fromOut n =>
    simp only [InPortState.applyOp] at happ
    split at happ
    · cases happ
    · cases happ
      simp
  | disconnect n =>
    simp only [InPortState.applyOp] at happ
    split at happ
    next h =>
      cases happ
      by_cases h0 : (pt.remotePorts.erase n).length = 0
      · have hemp : (pt.remotePorts.erase n).isEmpty = true := by
          rw [List.isEmpty_iff_length_eq_zero]
          exact h0
        rw [if_pos h0, hemp]
        rfl
      · have hne : pt.remotePorts ≠ [] := by
          intro hempty
          rw [hempty] at h
          simp at h
        have h1 : pt.remotePorts.isEmpty = false := by
          simp [List.isEmpty_iff, hne]
        have h2 : (pt.remotePorts.erase n).isEmpty = false := by
          rw [Bool.eq_false_iff]
          intro hc
          rw [List.isEmpty_iff_length_eq_zero] at hc
          exact h0 hc
        rw [if_neg h0, hinv, h1, h2]
    next h => cases happ
  | closeConnection n => simp [InPortOp.isCloseConn] at hop

lemma outPort_inv_step (pt : OutPortState) (op : OutPortOp) (pt' : OutPortState)
    (hop : op.isClose = false)
    (hinv : pt.ready = !pt.remotePorts.isEmpty)
    (happ : pt.applyOp op = some pt') :
    pt'.ready = !pt'.remotePorts.isEmpty := by
  cases op with
  | toIn n =>
    simp only [OutPortState.applyOp] at happ
    split at happ
    · cases happ
    · cases happ
      simp
  | disconnect n =>
    simp only [OutPortState.applyOp] at happ
    split at happ
    next h =>
      cases happ
      by_cases h0 : (pt.remotePorts.erase n).length = 0
      · have hemp : (pt.remotePorts.erase n).isEmpty = true := by
          rw [List.isEmpty_iff_length_eq_zero]
          exact h0
        rw [if_pos h0, hemp]
        rfl
      · have hne : pt.remotePorts ≠ [] := by
          intro hempty
          rw [hempty] at h
          simp at h
        have h1 : pt.remotePorts.isEmpty = false := by
          simp [List.isEmpty_iff, hne]
        have h2 : (pt.remotePorts.erase n).isEmpty = false := by
          rw [Bool.eq_false_iff]
          intro hc
          rw [List.isEmpty_iff_length_eq_zero] at hc
          exact h0 hc
        rw [if_neg h0, hinv, h1, h2]
    next h => cases happ
  | close => simp [OutPortOp.isClose] at hop

lemma runInPortOps_inv (ops : List InPortOp)
    (hops : ∀ op ∈ ops, op.isCloseConn = false) :
    ∀ pt : InPortState, pt.ready = !pt.remotePorts.isEmpty →
    ∀ s : InPortState,
      ops.foldl (fun s op => s.bind (fun pt => pt.applyOp op)) (some pt) = some s →
      s.ready = !s.remotePorts.isEmpty := by
  induction ops with
  | nil =>
    intro pt hinv s hrun
    simp at hrun
    rw [← hrun]
    exact hinv
  | cons op rest ih =>
    intro pt hinv s hrun
    simp only [List.foldl_cons] at hrun
    have hbind : ((some pt).bind fun pt => pt.applyOp op) = pt.applyOp op := rfl
    rw [hbind] at hrun
    cases happ : pt.applyOp op with
    | none =>
      rw [happ] at hrun
      rw [foldl_bind_none] at hrun
      cases hrun
    | some pt' =>
      rw [happ] at hrun
      exact ih (fun o ho => hops o (List.mem_cons_of_mem op ho)) pt'
        (inPort_inv_step pt op pt' (hops op (List.mem_cons_self op rest)) hinv happ) s hrun

lemma runOutPortOps_inv (ops : List OutPortOp)
    (hops : ∀ op ∈ ops, op.isClose = false) :
    ∀ pt : OutPortState, pt.ready = !pt.remotePorts.isEmpty →
    ∀ s : OutPortState,
      ops.foldl (fun s op => s.bind (fun pt => pt.applyOp op)) (some pt) = some s →
      s.ready = !s.remotePorts.isEmpty := by
  induction ops with
  | nil =>
    intro pt hinv s hrun
    simp at hrun
    rw [← hrun]
    exact hinv
  | cons op rest ih =>
    intro pt hinv s hrun
    simp only [List.foldl_cons] at hrun
    have hbind : ((some pt).bind fun pt => pt.applyOp op) = pt.applyOp op := rfl
    rw [hbind] at hrun
    cases happ : pt.applyOp op with
    | none =>
      rw [happ] at hrun
      rw [foldl_bind_none] at hrun
      cases hrun
    | some pt' =>
      rw [happ] at hrun
      exact ih (fun o ho => hops o (List.mem_cons_of_mem op ho)) pt'
        (outPort_inv_step pt op pt' (hops op (List.mem_cons_self op rest)) hinv happ) s hrun

/-- C7 counterexample: a fresh `InPort` connected by `From` to one
out-port and then subjected to that out-port's `CloseConnection` ends
with an empty remote registry while `Ready()` still returns `true`: the
claimed equivalence `Ready() = true ↔ registry non-empty` fails after
this concrete sequence of `From`/`CloseConnection` operations. -/
theorem inPort_ready_iff_nonempty_cex :
    runInPortOps [InPortOp.fromOut "p.out", InPortOp.closeConnection "p.out"] =
      some ⟨[], true, true⟩ ∧
    ¬((InPortState.mk [] true true).ready = true ↔
      (InPortState.mk [] true true).remotePorts ≠ []) := by
  constructor
  · decide
  · intro h
    exact (h.mp rfl) rfl

/-- C7 amended: `Ready()` is `true` exactly when the remote registry is
non-empty, for every `InPort` and `OutPort`, after any sequence of
`From`/`To` and `Disconnect` operations on a fresh port.  The
equivalence does not survive `InPort.CloseConnection` or
`OutPort.Close`, which empty the registry without clearing the ready
flag (see the counterexample). -/
theorem port_ready_iff_nonempty_from_disconnect
    (iops : List InPortOp) (oops : List OutPortOp)
    (si : InPortState) (so : OutPortState)
    (hiops : ∀ op ∈ iops, op.isCloseConn = false)
    (hoops : ∀ op ∈ oops, op.isClose = false)
    (hi : runInPortOps iops = some si) (ho : runOutPortOps oops = some so) :
    (si.ready = true ↔ si.remotePorts ≠ []) ∧
    (so.ready = true ↔ so.remotePorts ≠ []) := by
  have h1 : si.ready = !si.remotePorts.isEmpty :=
    runInPortOps_inv iops hiops newInPort (by decide) si hi
  have h2 : so.ready = !so.remotePorts.isEmpty :=
    runOutPortOps_inv oops hoops newOutPort (by decide) so ho
  constructor
  · rw [h1]
    simp [List.isEmpty_iff]
  · rw [h2]
    simp [List.isEmpty_iff]

/-- Witness for the amended C7 at concrete operation sequences
(two `From`s then a `Disconnect` of one remote; a `To` then a
`Disconnect` of the only remote). -/
theorem port_ready_iff_nonempty_from_disconnect_witness :
    runInPortOps [InPortOp.fromOut "a.out", InPortOp.fromOut "b.out",
        InPortOp.disconnect "a.out"] = some ⟨["b.out"], true, false⟩ ∧
    runOutPortOps [OutPortOp.toIn "c.in", OutPortOp.disconnect "c.in"] =
      some ⟨[], false⟩ ∧
    (((InPortState.mk ["b.out"] true false).ready = true ↔
        (InPortState.mk ["b.out"] true false).remotePorts ≠ []) ∧
      ((OutPortState.mk [] false).ready = true ↔
        (OutPortState.mk [] false).remotePorts ≠ [])) :=
  ⟨by decide, by decide,
    port_ready_iff_nonempty_from_disconnect
      [InPortOp.fromOut "a.out", InPortOp.fromOut "b.out", InPortOp.disconnect "a.out"]
      [OutPortOp.toIn "c.in", OutPortOp.disconnect "c.in"]
      ⟨["b.out"], true, false⟩ ⟨[], false⟩
      (by decide) (by decide) (by decide) (by decide)⟩

/-! ### `FileIP` tags (src/ip.go lines 67-94, src/packet.go lines 44-71)

The Go tag map `map[string]string` is embedded as an association list;
`ip.tags[k]` is Go's zero-value map lookup, which yields `""` for an
absent key. -/

/-- Go map lookup `ip.tags[k]`: the stored value, or the zero value
`""` when the key is absent. -/
def tagsGet (tags : List (String × String)) (k : String) : String :=
  match tags.find? (fun p => p.1 == k) with
  | some p => p.2
  | none => ""

/-- Go map assignment `ip.tags[k] = v`. -/
def tagsSet (tags : List (String × String)) (k v : String) : List (String × String) :=
  if (tags.find? (fun p => p.1 == k)).isSome then
    tags.map (fun p => if p.1 == k then (p.1, v) else p)
  else tags ++ [(k, v)]

/-- Outcome of `FileIP.Tag`: a returned value (with or without the
warning log), or process termination.  `Tag` never takes the
termination branch; the constructor exists so that "never terminates
the process" is expressible. -/
inductive TagOutcome where
  | ret (v : String) (warned : Bool)
  | fatalStop
  deriving Repr, DecidableEq

/-- `FileIP.Tag` (src/ip.go lines 67-74): `v, ok := ip.tags[k]`; when
`!ok` log a warning and return `""`; otherwise return `v`.
`Packet.Tag` (src/packet.go lines 44-51) is identical. -/
def FileIP.tag (tags : List (String × String)) (k : String) : TagOutcome :=
  match tags.find? (fun p => p.1 == k) with
  | none => .ret "" true
  | some p => .ret p.2 false

/-- Outcome of `FileIP.AddTag`: the updated tag map, or the fatal
`Failf` branch. -/
inductive AddTagResult where
  | ok (tags : List (String × String))
  | fatal
  deriving Repr, DecidableEq

/-- `FileIP.AddTag` (src/ip.go lines 82-87): fatal when
`ip.tags[k] != "" && ip.tags[k] != v` (zero-value lookups), otherwise
`ip.tags[k] = v`. -/
def FileIP.addTag (tags : List (String × String)) (k v : String) : AddTagResult :=
  if tagsGet tags k ≠ "" ∧ tagsGet tags k ≠ v then .fatal
  else .ok (tagsSet tags k v)

lemma tagsGet_tagsSet (tags : List (String × String)) (k v : String) :
    tagsGet (tagsSet tags k v) k = v := by
  induction tags with
  | nil => simp [tagsSet, tagsGet]
  | cons hd tl ih =>
    by_cases hk : hd.1 = k
    · simp [tagsSet, tagsGet, List.find?, hk]
    · have hbf : (hd.1 == k) = false := by simp [hk]
      have hfind : ((hd :: tl).find? (fun p => p.1 == k)) = tl.find? (fun p => p.1 == k) := by
        simp [List.find?, hbf]
      by_cases hp : (tl.find? (fun p => p.1 == k)).isSome
      · have hset : tagsSet (hd :: tl) k v =
            hd :: tl.map (fun p => if p.1 == k then (p.1, v) else p) := by
          simp [tagsSet, hfind, hp, hk]
        rw [hset]
        have htl : tagsSet tl k v = tl.map (fun p => if p.1 == k then (p.1, v) else p) := by
          simp [tagsSet, hp]
        rw [htl] at ih
        simpa [tagsGet, List.find?, hbf] using ih
      · have hset : tagsSet (hd :: tl) k v = hd :: (tl ++ [(k, v)]) := by
          simp [tagsSet, hfind, hp]
        rw [hset]
        have htl : tagsSet tl k v = tl ++ [(k, v)] := by
          simp [tagsSet, hp]
        rw [htl] at ih
        simpa [tagsGet, List.find?, hbf] using ih

lemma tagsGet_of_find (tags : List (String × String)) (k w : String)
    (h : tags.find? (fun p => p.1 == k) = some (k, w)) : tagsGet tags k = w := by
  simp [tagsGet, h]

/-- C10: `Tag(k)` on a key absent from the tag map returns the empty
string with only a warning, and on a present key returns the stored
value; `Tag` never takes the fatal process-terminating branch. -/
theorem tag_missing_key_returns_empty (tags : List (String × String)) (k : String) :
    (tags.find? (fun p => p.1 == k) = none → FileIP.tag tags k = .ret "" true) ∧
    (∀ p, tags.find? (fun p => p.1 == k) = some p → FileIP.tag tags k = .ret p.2 false) ∧
    FileIP.tag tags k ≠ .fatalStop := by
  refine ⟨fun h => by simp [FileIP.tag, h], fun p h => by simp [FileIP.tag, h], ?_⟩
  unfold FileIP.tag
  cases tags.find? (fun p => p.1 == k) <;> simp

/-- Witness for C10: an absent key gives `""` plus a warning, a present
key gives the stored value, and no input reaches the fatal branch. -/
theorem tag_missing_key_returns_empty_witness :
    FileIP.tag [("a", "1")] "k" = .ret "" true ∧
    FileIP.tag [("k", "x")] "k" = .ret "x" false ∧
    FileIP.tag [("a", "1")] "k" ≠ .fatalStop :=
  ⟨(tag_missing_key_returns_empty [("a", "1")] "k").1 (by decide),
   (tag_missing_key_returns_empty [("k", "x")] "k").2.1 ("k", "x") (by decide),
   (tag_missing_key_returns_empty [("a", "1")] "k").2.2⟩

/-- C9 counterexample: an IP that carries tag `"k"` bound to `""`
(a value different from `"x"`) does not fail fatally on
`AddTag("k", "x")`; the call succeeds and overwrites, because the Go
zero-value lookup cannot distinguish a key bound to `""` from an
absent key. -/
theorem addTag_conflicting_empty_value_cex :
    [("k", "")].find? (fun p => p.1 == "k") = some ("k", "") ∧
    ("" : String) ≠ "x" ∧
    FileIP.addTag [("k", "")] "k" "x" = .ok [("k", "x")] := by
  refine ⟨by decide, by decide, ?_⟩
  decide

/-- C9 amended: `AddTag(k, v)` fails fatally when the IP carries tag
`k` bound to a *non-empty* value different from `v`; when `k` is
fresh, bound to exactly `v`, or bound to the empty string, `AddTag`
succeeds and the tag map afterwards maps `k` to `v`. -/
theorem addTag_conflict_fatal (tags : List (String × String)) (k v : String) :
    ((∃ w, tags.find? (fun p => p.1 == k) = some (k, w) ∧ w ≠ "" ∧ w ≠ v) →
      FileIP.addTag tags k v = .fatal) ∧
    (tagsGet tags k = "" ∨ tagsGet tags k = v →
      FileIP.addTag tags k v = .ok (tagsSet tags k v) ∧
      tagsGet (tagsSet tags k v) k = v) := by
  constructor
  · rintro ⟨w, hfind, hw1, hw2⟩
    have hget : tagsGet tags k = w := tagsGet_of_find tags k w hfind
    simp [FileIP.addTag, hget, hw1, hw2]
  · intro h
    have : ¬(tagsGet tags k ≠ "" ∧ tagsGet tags k ≠ v) := by
      rcases h with h | h <;> simp [h]
    simp only [FileIP.addTag, this, if_false]
    exact ⟨trivial, tagsGet_tagsSet tags k v⟩

/-- Witness for the amended C9: a conflicting non-empty value is
fatal; a fresh key succeeds and stores the value. -/
theorem addTag_conflict_fatal_witness :
    FileIP.addTag [("k", "a")] "k" "b" = .fatal ∧
    (FileIP.addTag [] "k" "b" = .ok (tagsSet [] "k" "b") ∧
      tagsGet (tagsSet [] "k" "b") "k" = "b") :=
  ⟨(addTag_conflict_fatal [("k", "a")] "k" "b").1 ⟨"a", by decide, by decide, by decide⟩,
   (addTag_conflict_fatal [] "k" "b").2 (Or.inl (by decide))⟩

/-! ### `FileIP.FinalizePath` retry loop (scipipe-iteration IP file,
src/unnamed/part_001 lines 245-284)

The loop checks `TempFileExists()`, and on failure either dies fatally
(`tries >= finalizePathMaxTries`) or sleeps `sleepDurationSec`
seconds, multiplies the sleep by `finalizePathBackoffFactor` and
increments `tries`.  The embedding records the sequence of sleeps and
the outcome; the filesystem is abstracted as a per-check predicate. -/

/-- `finalizePathMaxTries` (src/unnamed/part_001 line 246). -/
def finalizePathMaxTries : Nat := 3

/-- `finalizePathBackoffFactor` (src/unnamed/part_001 line 247). -/
def finalizePathBackoffFactor : Nat := 4

/-- Outcome of `FinalizePath`: normal return, or the fatal `Failf`. -/
inductive FinalizeOutcome where
  | finished
  | fatal
  deriving Repr, DecidableEq

/-- The `for !doneFinalizingPath` loop of `FinalizePath`
(src/unnamed/part_001 lines 258-283): `tempExists i` is the result of
the `i`-th `TempFileExists()` check; returns the list of sleep
durations (seconds) performed, and the outcome. -/
def finalizePathLoop (tempExists : Nat → Bool) (iter tries sleepDurationSec : Nat) :
    List Nat × FinalizeOutcome :=
  if tempExists iter then ([], .finished)
  else if h : tries ≥ finalizePathMaxTries then ([], .fatal)
  else
    let rest := finalizePathLoop tempExists (iter + 1) (tries + 1)
      (sleepDurationSec * finalizePathBackoffFactor)
    (sleepDurationSec :: rest.1, rest.2)
termination_by finalizePathMaxTries + 1 - tries
decreasing_by simp_wf; omega

/-- `FileIP.FinalizePath` (src/unnamed/part_001 lines 252-284), entry
state: `tries := 0`, `sleepDurationSec := 1`. -/
def FileIP.finalizePath (tempExists : Nat → Bool) : List Nat × FinalizeOutcome :=
  finalizePathLoop tempExists 0 0 1

/-- C8: `FinalizePath` on an IP whose temp file never appears sleeps
exactly 3 times, multiplying the wait by 4 before each retry (waits of
1, 4 and 16 seconds), and after the last retry fails fatally instead
of returning. -/
theorem finalizePath_retries_then_fatal :
    FileIP.finalizePath (fun _ => false) = ([1, 4, 16], .fatal) := by
  unfold FileIP.finalizePath
  rw [finalizePathLoop, finalizePathLoop, finalizePathLoop, finalizePathLoop]
  norm_num [finalizePathMaxTries, finalizePathBackoffFactor]


/-! ### The `Sink` drain loop (src/sink.go lines 20-42)

`Sink.Run` ranges over the `inPorts` slice, does a non-blocking
receive (`select` with a `default` arm) on each channel, and calls
`deleteInPortAtKey(i)` — `append(inPorts[:i], inPorts[i+1:]...)` —
when a channel reports closed.  The embedding keeps the Go slice
semantics explicit: `backing` is the backing array (channel ids, so
aliasing after in-place shifts is preserved), `curLen` the slice
length; `range` snapshots the length once but reads elements from the
shared backing array, and the slice expression `inPorts[i+1:]` panics
when `i + 1` exceeds the current length.  Channels are quiescent
buffers (no concurrent senders) checked at drain time, which matches
any schedule in which the producers have finished. -/

/-- A Go channel as the sink sees it: buffered values and the closed
flag. -/
structure SinkChan where
  buf : List Nat
  closed : Bool
  deriving Repr, DecidableEq

/-- Non-blocking receive (`select` / `default`): a buffered value
(`ok = true`), the closed signal (`ok = false`) on an empty closed
channel, or `none` when the receive would block and the `default` arm
is taken. -/
def SinkChan.tryRecv (c : SinkChan) : Option (Option Nat × SinkChan) :=
  match c.buf with
  | v :: rest => some (some v, { c with buf := rest })
  | [] => if c.closed then some (none, c) else none

/-- Go runtime panics the sink loop can hit. -/
inductive GoPanic where
  | sliceOutOfRange
  deriving Repr, DecidableEq

/-- State of `Sink.Run`: the channel objects (by id), the backing
array of the `inPorts` slice, and the slice length. -/
structure SinkState where
  chans : List SinkChan
  backing : List Nat
  curLen : Nat
  deriving Repr, DecidableEq

/-- `Sink.deleteInPortAtKey(i)` (src/sink.go lines 39-42):
`proc.inPorts = append(proc.inPorts[:i], proc.inPorts[i+1:]...)`.
The slice expression `inPorts[i+1:]` has default upper bound
`len(inPorts)` and panics when `i+1` exceeds it; otherwise the
`append` copies elements `i+1 .. curLen-1` down one position inside
the same backing array (positions at and beyond `curLen-1` keep their
old values) and the length shrinks by one. -/
def SinkState.deleteInPortAtKey (st : SinkState) (i : Nat) : Except GoPanic SinkState :=
  if i + 1 > st.curLen then .error .sliceOutOfRange
  else .ok { st with
             backing := st.backing.take i ++
               ((st.backing.drop (i + 1)).take (st.curLen - 1 - i)) ++
               st.backing.drop (st.curLen - 1),
             curLen := st.curLen - 1 }

/-- One iteration of the inner `for i, ich := range proc.inPorts` body
(src/sink.go lines 24-35): read the channel at position `i` of the
backing array, attempt a non-blocking receive, and delete the slice
entry when the channel reports closed. -/
def SinkState.passStep (st : SinkState) (i : Nat) : Except GoPanic SinkState :=
  match st.backing.get? i with
  | none => .ok st
  | some cid =>
    match st.chans.get? cid with
    | none => .ok st
    | some c =>
      match c.tryRecv with
      | none => .ok st
      | some (some _, c') => .ok { st with chans := st.chans.set cid c' }
      | some (none, _) => st.deleteInPortAtKey i

/-- The inner `range` loop over a snapshot of indices. -/
def SinkState.sweep (st : SinkState) (idxs : List Nat) : Except GoPanic SinkState :=
  match idxs with
  | [] => .ok st
  | i :: rest =>
    match st.passStep i with
    | .error e => .error e
    | .ok st' => st'.sweep rest

/-- The outer `for len(proc.inPorts) > 0` loop, with fuel (the Go loop
may spin forever while channels stay open); `some` is normal
termination, `none` is fuel exhaustion. -/
def sinkRunLoop (fuel : Nat) (st : SinkState) : Except GoPanic (Option SinkState) :=
  match fuel with
  | 0 => .ok none
  | fuel + 1 =>
    if st.curLen = 0 then .ok (some st)
    else
      match st.sweep (List.range st.curLen) with
      | .error e => .error e
      | .ok st' => sinkRunLoop fuel st'

/-- `Sink.Run` (src/sink.go lines 20-37) on the channels registered by
`Connect`: the `inPorts` slice initially lists every channel in
order. -/
def Sink.run (fuel : Nat) (chans : List SinkChan) : Except GoPanic (Option SinkState) :=
  sinkRunLoop fuel { chans := chans, backing := List.range chans.length,
                     curLen := chans.length }

/-- C5: on the failing input — a sink watching two channels that are
both closed and empty when `Run()` starts — the first sweep deletes
channel 0 at index 0, reads the shifted backing array at index 1,
finds the already-closed channel 1 there, and `deleteInPortAtKey(1)`
evaluates `inPorts[2:]` on a slice of length 1: `Run()` dies with a Go
slice-bounds panic instead of removing every closed channel and
terminating. -/
theorem sink_run_two_closed_channels_panics :
    Sink.run 1 [SinkChan.mk [] true, SinkChan.mk [] true] =
      .error GoPanic.sliceOutOfRange := by
  rfl

/-- Sanity check: with a single watched channel holding one buffered
value, `Run()` drains the value, removes the channel once it reports
closed, and terminates normally — the panic needs two channels to be
removed in the same sweep. -/
lemma sink_run_single_channel_ok :
    Sink.run 3 [SinkChan.mk [5] true] =
      .ok (some (SinkState.mk [SinkChan.mk [] true] [0] 0)) := by
  rfl

/-! ### Network topology repair, driver election and scheduling
(src/unnamed/part_000 lines 280-358; the scipipe `Workflow` iteration
in src/network.go lines 356-451 is the same algorithm)

Connection registries are embedded by name: an out-port holds the
list of `(remote in-port name, owner node name)` pairs from its
`RemotePorts` map (keys distinct), plus its ready flag; a node holds
its in-ports (only their ready flags matter here) and out-ports.  The
`Sink` value used by `net.sink.From(opt)` is declared and called in
the sources but its own file is not part of this source tree, so the
attach step is modelled from the spec ("attach it to the Network's
Sink") together with `InPort.From` (src/port.go lines 62-68), which
registers the two sides mutually and sets both ready flags. -/

/-- An `OutPort` with its remote registry: `(in-port name, owner node
name)` pairs, map keys being the in-port names. -/
structure OutPortR where
  name : String
  remotes : List (String × String)
  ready : Bool
  deriving Repr, DecidableEq

/-- An `InPort` of a run-set node; topology repair never touches the
in-port side of a severed edge, so only the ready flag matters. -/
structure InPortR where
  name : String
  ready : Bool
  deriving Repr, DecidableEq

/-- A `Node` (src/unnamed/part_000 lines 41-49): name plus port
registries. -/
structure NodeR where
  name : String
  inPorts : List InPortR
  outPorts : List OutPortR
  deriving Repr, DecidableEq

/-- `BaseProcess.Ready` (src/process.go lines 102-117): the AND over
all in-ports' and out-ports' ready flags. -/
def NodeR.ready (n : NodeR) : Bool :=
  n.inPorts.all (fun p => p.ready) && n.outPorts.all (fun p => p.ready)

/-- `OutPort.Disconnect` (src/port.go lines 196-201): remove the
remote registered under `rptName`, and clear the ready flag when the
registry is now empty. -/
def OutPortR.disconnect (pt : OutPortR) (rptName : String) : OutPortR :=
  let remotes := pt.remotes.filter (fun r => r.1 ≠ rptName)
  { pt with remotes := remotes,
            ready := (if remotes.length = 0 then false else pt.ready) }

/-- The inner loop of `reconnectDeadEndConnections`
(src/unnamed/part_000 lines 326-336): for every registered remote
in-port whose owning node is not in the run set, disconnect it.
Go map iteration visits each original entry once and only the visited
entry is deleted, so a fold over the original entry list is
faithful. -/
def OutPortR.disconnectDead (runset : List String) (pt : OutPortR) : OutPortR :=
  pt.remotes.foldl
    (fun acc r => if runset.contains r.2 then acc else acc.disconnect r.1) pt

/-- The per-out-port body of `reconnectDeadEndConnections`
(src/unnamed/part_000 lines 326-341): disconnect dead edges, then
`if !opt.Ready() { net.sink.From(opt) }`.  The sink attach is modelled
from the spec (the Sink's own file is not in this tree): a fresh
in-port of the sink and the out-port register each other and both
become ready, exactly what `InPort.From` does on the out-port. -/
def OutPortR.repair (runset : List String) (sinkInName sinkName : String)
    (pt : OutPortR) : OutPortR :=
  if !(pt.disconnectDead runset).ready then
    { pt.disconnectDead runset with
      remotes := (pt.disconnectDead runset).remotes ++ [(sinkInName, sinkName)],
      ready := true }
  else pt.disconnectDead runset

/-- Repair of all out-ports of one run-set node. -/
def NodeR.repair (runset : List String) (sinkInName sinkName : String)
    (node : NodeR) : NodeR :=
  { node with outPorts := node.outPorts.map (OutPortR.repair runset sinkInName sinkName) }


lemma OutPortR.foldDisconnect (runset : List String) :
    ∀ (l kept : List (String × String)) (pt : OutPortR),
    pt.remotes = kept ++ l →
    ((kept ++ l).map Prod.fst).Nodup →
    (l.foldl (fun acc r => if runset.contains r.2 then acc
        else acc.disconnect r.1) pt).remotes =
      kept ++ l.filter (fun r => runset.contains r.2) ∧
    (l.foldl (fun acc r => if runset.contains r.2 then acc
        else acc.disconnect r.1) pt).ready =
      (if kept = [] ∧ l.filter (fun r => runset.contains r.2) = [] ∧ l ≠ []
       then false else pt.ready) ∧
    (l.foldl (fun acc r => if runset.contains r.2 then acc
        else acc.disconnect r.1) pt).name = pt.name := by
  intro l
  induction l with
  | nil =>
    intro kept pt hrem _
    refine ⟨by simpa using hrem, by simp, rfl⟩
  | cons r rest ih =>
    intro kept pt hrem hnd
    by_cases halive : runset.contains r.2 = true
    · -- the remote's owner is in the run set: no disconnect happens
      have hstep : (r :: rest).foldl (fun acc x => if runset.contains x.2 then acc
          else acc.disconnect x.1) pt =
          rest.foldl (fun acc x => if runset.contains x.2 then acc
          else acc.disconnect x.1) pt := by
        simp only [List.foldl_cons]
        rw [if_pos halive]
      have hfc : (r :: rest).filter (fun x => runset.contains x.2) =
          r :: rest.filter (fun x => runset.contains x.2) := by
        simp only [List.filter_cons]
        rw [if_pos halive]
      obtain ⟨ih1, ih2, ih3⟩ := ih (kept ++ [r]) pt
        (by rw [hrem, List.append_cons])
        (by rw [← List.append_cons]; exact hnd)
      rw [hstep]
      refine ⟨?_, ?_, ih3⟩
      · rw [ih1, hfc, List.append_assoc]
        rfl
      · rw [ih2, if_neg (by simp), if_neg ?hcond]
        case hcond =>
          intro hc
          rw [hfc] at hc
          cases hc.2.1
    · -- dead edge: `opt.Disconnect(iptName)` removes exactly this entry
      have hfc : (r :: rest).filter (fun x => runset.contains x.2) =
          rest.filter (fun x => runset.contains x.2) := by
        simp only [List.filter_cons]
        rw [if_neg halive]
      have hndm : ((kept.map Prod.fst) ++ (r.1 :: rest.map Prod.fst)).Nodup := by
        rw [← List.map_cons, ← List.map_append]
        exact hnd
      have hkey1 : r.1 ∉ kept.map Prod.fst := by
        intro hmem
        exact (List.nodup_append.mp hndm).2.2 hmem (by simp)
      have hkey2 : r.1 ∉ rest.map Prod.fst := by
        have h1 := (List.nodup_append.mp hndm).2.1
        exact (List.nodup_cons.mp h1).1
      have hfilter : (kept ++ r :: rest).filter (fun x => x.1 ≠ r.1) = kept ++ rest := by
        rw [List.filter_append]
        congr 1
        · apply List.filter_eq_self.mpr
          intro x hx
          simp only [ne_eq, decide_eq_true_eq]
          intro hc
          exact hkey1 (hc ▸ List.mem_map_of_mem Prod.fst hx)
        · rw [List.filter_cons, if_neg (by simp)]
          apply List.filter_eq_self.mpr
          intro x hx
          simp only [ne_eq, decide_eq_true_eq]
          intro hc
          exact hkey2 (hc ▸ List.mem_map_of_mem Prod.fst hx)
      have hpt1rem : (pt.disconnect r.1).remotes = kept ++ rest := by
        show (pt.remotes.filter (fun x => x.1 ≠ r.1)) = kept ++ rest
        rw [hrem, hfilter]
      have hpt1rdy : (pt.disconnect r.1).ready =
          (if (kept ++ rest).length = 0 then false else pt.ready) := by
        show (if (pt.remotes.filter (fun x => x.1 ≠ r.1)).length = 0 then false
              else pt.ready) = _
        rw [hrem, hfilter]
      have hstep : (r :: rest).foldl (fun acc x => if runset.contains x.2 then acc
          else acc.disconnect x.1) pt =
          rest.foldl (fun acc x => if runset.contains x.2 then acc
          else acc.disconnect x.1) (pt.disconnect r.1) := by
        simp only [List.foldl_cons]
        rw [if_neg halive]
      have hndrec : ((kept ++ rest).map Prod.fst).Nodup := by
        have hsub : (kept ++ rest).Sublist (kept ++ r :: rest) :=
          List.Sublist.append_left (List.sublist_cons_self r rest) kept
        exact (hsub.map Prod.fst).nodup hnd
      obtain ⟨ih1, ih2, ih3⟩ := ih kept (pt.disconnect r.1) hpt1rem hndrec
      rw [hstep]
      refine ⟨by rw [ih1, hfc], ?_, by rw [ih3]; rfl⟩
      rw [ih2]
      by_cases hab : kept = [] ∧ rest.filter (fun x => runset.contains x.2) = []
      · have hgcond : kept = [] ∧
            (r :: rest).filter (fun x => runset.contains x.2) = [] ∧ (r :: rest) ≠ [] :=
          ⟨hab.1, by rw [hfc]; exact hab.2, by simp⟩
        rw [if_pos hgcond]
        by_cases hr : rest = []
        · rw [if_neg (by simp [hr]), hpt1rdy, if_pos (by simp [hab.1, hr])]
        · rw [if_pos ⟨hab.1, hab.2, hr⟩]
      · have hgcond : ¬(kept = [] ∧
            (r :: rest).filter (fun x => runset.contains x.2) = [] ∧ (r :: rest) ≠ []) := by
          intro hc
          exact hab ⟨hc.1, by rw [← hfc]; exact hc.2.1⟩
        rw [if_neg hgcond, if_neg (fun hc => hab ⟨hc.1, hc.2.1⟩), hpt1rdy,
          if_neg ?hlen]
        case hlen =>
          intro h0
          rw [List.length_append] at h0
          have hk0 : kept = [] := List.length_eq_zero.mp (by omega)
          have hr0 : rest = [] := List.length_eq_zero.mp (by omega)
          exact hab ⟨hk0, by rw [hr0]; rfl⟩

lemma OutPortR.disconnectDead_spec (runset : List String) (pt : OutPortR)
    (hnd : (pt.remotes.map Prod.fst).Nodup) :
    (pt.disconnectDead runset).remotes =
      pt.remotes.filter (fun r => runset.contains r.2) ∧
    (pt.disconnectDead runset).ready =
      (if pt.remotes.filter (fun r => runset.contains r.2) = [] ∧ pt.remotes ≠ []
       then false else pt.ready) ∧
    (pt.disconnectDead runset).name = pt.name := by
  have h := OutPortR.foldDisconnect runset pt.remotes [] pt (by simp) (by simpa using hnd)
  unfold OutPortR.disconnectDead
  refine ⟨by rw [h.1]; rfl, ?_, h.2.2⟩
  rw [h.2.1]
  by_cases hc : pt.remotes.filter (fun r => runset.contains r.2) = [] ∧ pt.remotes ≠ []
  · rw [if_pos ⟨rfl, hc.1, hc.2⟩, if_pos hc]
  · rw [if_neg (fun hx => hc ⟨hx.2.1, hx.2.2⟩), if_neg hc]

lemma OutPortR.repair_spec (runset : List String) (sinkInName sinkName : String)
    (pt : OutPortR) (hnd : (pt.remotes.map Prod.fst).Nodup)
    (hready : pt.ready = !pt.remotes.isEmpty) :
    (pt.repair runset sinkInName sinkName).remotes =
      (if pt.remotes.filter (fun r => runset.contains r.2) = []
       then [(sinkInName, sinkName)]
       else pt.remotes.filter (fun r => runset.contains r.2)) ∧
    (pt.repair runset sinkInName sinkName).ready = true ∧
    (pt.repair runset sinkInName sinkName).name = pt.name := by
  obtain ⟨h1, h2, h3⟩ := OutPortR.disconnectDead_spec runset pt hnd
  unfold OutPortR.repair
  by_cases hf : pt.remotes.filter (fun r => runset.contains r.2) = []
  · have hrdy : (pt.disconnectDead runset).ready = false := by
      by_cases hrem : pt.remotes = []
      · rw [h2, if_neg (fun hx => hx.2 hrem), hready, hrem]
        rfl
      · rw [h2, if_pos ⟨hf, hrem⟩]
    rw [hrdy, if_pos (show (!false) = true from rfl)]
    refine ⟨?_, rfl, h3⟩
    rw [h1, hf, if_pos rfl]
    rfl
  · have hne : pt.remotes ≠ [] := by
      intro hc
      apply hf
      rw [hc]
      rfl
    have hrdy : (pt.disconnectDead runset).ready = true := by
      rw [h2, if_neg (fun hx => hf hx.1), hready]
      simpa [List.isEmpty_iff] using hne
    rw [hrdy, if_neg (show ¬((!true) = true) by decide)]
    exact ⟨by rw [h1, if_neg hf], hrdy, h3⟩

/-- C4: for every run-set and every run-set node whose port flags
satisfy the construction invariant (out-port ready iff registry
non-empty, in-ports all ready): topology repair removes exactly the
connections whose target in-port is owned by a node outside the run
set, connects every out-port left without connections to the Network
sink, and leaves the node `Ready()`. -/
theorem reconnect_repairs_dead_end_connections
    (runset : List String) (sinkInName sinkName : String) (node : NodeR)
    (hnd : ∀ opt ∈ node.outPorts, (opt.remotes.map Prod.fst).Nodup)
    (hready : ∀ opt ∈ node.outPorts, opt.ready = !opt.remotes.isEmpty)
    (hin : node.inPorts.all (fun p => p.ready) = true) :
    (node.repair runset sinkInName sinkName).ready = true ∧
    ∀ opt ∈ node.outPorts,
      (OutPortR.repair runset sinkInName sinkName opt).remotes =
        (if opt.remotes.filter (fun r => runset.contains r.2) = []
         then [(sinkInName, sinkName)]
         else opt.remotes.filter (fun r => runset.contains r.2)) ∧
      (OutPortR.repair runset sinkInName sinkName opt).ready = true := by
  constructor
  · unfold NodeR.ready NodeR.repair
    simp only [List.all_eq_true, Bool.and_eq_true]
    constructor
    · intro p hp
      exact (List.all_eq_true.mp hin) p hp
    · intro p hp
      obtain ⟨opt, hopt, rfl⟩ := List.mem_map.mp hp
      exact (OutPortR.repair_spec runset sinkInName sinkName opt
        (hnd opt hopt) (hready opt hopt)).2.1
  · intro opt hopt
    obtain ⟨h1, h2, _⟩ := OutPortR.repair_spec runset sinkInName sinkName opt
      (hnd opt hopt) (hready opt hopt)
    exact ⟨h1, h2⟩

/-- Witness for C4: node `A` has one out-port feeding `B` (kept in the
run set) and `C` (excluded), and one out-port feeding only `C`; after
repair the first port keeps exactly the `B` edge, the second is
attached to the sink, and `A` is still `Ready()`. -/
theorem reconnect_repairs_dead_end_connections_witness :
    ((NodeR.mk "A" [InPortR.mk "A.in" true]
        [OutPortR.mk "A.out" [("B.in", "B"), ("C.in", "C")] true,
         OutPortR.mk "A.aux" [("C.x", "C")] true]).repair
        ["A", "B"] "sink.in" "sink").ready = true ∧
    (OutPortR.repair ["A", "B"] "sink.in" "sink"
        (OutPortR.mk "A.out" [("B.in", "B"), ("C.in", "C")] true)).remotes =
      [("B.in", "B")] ∧
    (OutPortR.repair ["A", "B"] "sink.in" "sink"
        (OutPortR.mk "A.aux" [("C.x", "C")] true)).remotes =
      [("sink.in", "sink")] := by
  have h := reconnect_repairs_dead_end_connections ["A", "B"] "sink.in" "sink"
    (NodeR.mk "A" [InPortR.mk "A.in" true]
      [OutPortR.mk "A.out" [("B.in", "B"), ("C.in", "C")] true,
       OutPortR.mk "A.aux" [("C.x", "C")] true])
    (by decide) (by decide) (by decide)
  refine ⟨h.1, ?_, ?_⟩
  · have h2 := (h.2 (OutPortR.mk "A.out" [("B.in", "B"), ("C.in", "C")] true)
      (by decide)).1
    rw [h2]
    decide
  · have h2 := (h.2 (OutPortR.mk "A.aux" [("C.x", "C")] true) (by decide)).1
    rw [h2]
    decide

/-! ### Driver election and scheduling (src/unnamed/part_000 lines
280-358)

`reconnectDeadEndConnections` walks the run-set map once: it repairs
every node as above and, for every node with zero out-ports, records
it as the new driver — a second such node is a fatal "more than one
process without out-ports" failure.  After the walk, when a driver was
found and the run set has more than one member, the driver is deleted
from the Network's persistent `procs` registry.  `runProcs` then
starts one goroutine per entry of the `procs` map it was *passed* and
finally runs the driver synchronously; that map is `net.procs` itself
for `Run()` (so the deletion is visible to the loop) but a separately
built map for `RunToProcs` (so it is not). -/

/-- The per-node walk of `reconnectDeadEndConnections`: repairs each
node and threads `foundNewDriverProc` (the name of the driver found so
far); the second zero-out-port node hits `Failf`, embedded as
`.error`. -/
def reconnectNodes (runsetNames : List String) (sinkInName sinkName : String) :
    List NodeR → Option String → Except String (List NodeR × Option String)
  | [], found => .ok ([], found)
  | node :: rest, found =>
    if node.outPorts.length = 0 then
      match found with
      | some _ => .error "Found more than one process without out-ports"
      | none =>
        match reconnectNodes runsetNames sinkInName sinkName rest (some node.name) with
        | .error e => .error e
        | .ok (rs, f) => .ok (node.repair runsetNames sinkInName sinkName :: rs, f)
    else
      match reconnectNodes runsetNames sinkInName sinkName rest found with
      | .error e => .error e
      | .ok (rs, f) => .ok (node.repair runsetNames sinkInName sinkName :: rs, f)

/-- The `Network` state that scheduling touches: the persistent node
registry `net.procs` (an association by node name), the current driver
(initially the sink), and the sink identity used when reattaching
dead-end out-ports. -/
structure NetworkR where
  procs : List NodeR
  driverName : String
  sinkName : String
  sinkInName : String
  deriving Repr, DecidableEq

/-- `Network.reconnectDeadEndConnections` (src/unnamed/part_000 lines
321-358) on a run-set map: repair + driver election over the run set,
then — when a driver was elected and the run set has more than one
member — deletion of the driver from the persistent registry
`net.procs`.  Returns the updated network, the repaired run-set nodes,
and the elected driver, if any. -/
def NetworkR.reconnectDeadEndConnections (net : NetworkR) (runset : List NodeR) :
    Except String (NetworkR × List NodeR × Option String) :=
  match reconnectNodes (runset.map (fun n => n.name)) net.sinkInName net.sinkName
      runset none with
  | .error e => .error e
  | .ok (repaired, some d) =>
    .ok ({ net with
           driverName := d,
           procs := (if 1 < runset.length
                     then net.procs.filter (fun (n : NodeR) => n.name ≠ d)
                     else net.procs) }, repaired, some d)
  | .ok (repaired, none) => .ok (net, repaired, none)

/-- What a run schedules: the nodes started as background workers
(`go node.Run()`), and the driver, whose `Run()` is then called
synchronously so that the triggering call returns only after it
returns. -/
structure RunSchedule where
  workers : List String
  driver : String
  deriving Repr, DecidableEq

/-- `Network.runProcs` (src/unnamed/part_000 lines 281-297): repair
and driver election, the `readyToRun` gate (non-empty run set, every
scheduled node `Ready()`), one `go node.Run()` per entry of the map it
was passed, then `net.driver.Run()` synchronously.  In Go the `procs`
argument is a map passed by reference: for `Run()` it *is* `net.procs`
(`runsetIsRegistry = true`), so the driver deletion performed inside
`reconnectDeadEndConnections` is visible to the loop; for
`RunToProcs` it is a separately built map (`runsetIsRegistry =
false`), and the deletion from `net.procs` does not change it. -/
def NetworkR.runProcs (net : NetworkR) (runset : List NodeR)
    (runsetIsRegistry : Bool) : Except String RunSchedule :=
  match net.reconnectDeadEndConnections runset with
  | .error e => .error e
  | .ok (net', repaired, elected) =>
    let loopProcs :=
      match elected with
      | some d =>
        if runsetIsRegistry = true ∧ 1 < runset.length
        then repaired.filter (fun (n : NodeR) => n.name ≠ d)
        else repaired
      | none => repaired
    if loopProcs.length = 0 then .error "The workflow is empty"
    else if !(loopProcs.all (fun (n : NodeR) => n.ready)) then
      .error "Not everything connected"
    else .ok { workers := loopProcs.map (fun (n : NodeR) => n.name),
               driver := net'.driverName }

/-- `Network.Run` (src/unnamed/part_000 lines 235-237):
`net.runProcs(net.procs)` — the run-set map is the registry itself. -/
def NetworkR.run (net : NetworkR) : Except String RunSchedule :=
  net.runProcs net.procs true

/-- A `RunToProcs`-triggered run (src/unnamed/part_000 lines 267-274):
the run-set map `procsToRun` is built fresh by the caller, so it is
not the registry object. -/
def NetworkR.runToProcsWith (net : NetworkR) (procsToRun : List NodeR) :
    Except String RunSchedule :=
  net.runProcs procsToRun false

lemma reconnectNodes_no_candidate (runsetNames : List String)
    (sinkInName sinkName : String) :
    ∀ (l : List NodeR) (found : Option String),
    l.filter (fun n => n.outPorts.length = 0) = [] →
    reconnectNodes runsetNames sinkInName sinkName l found =
      .ok (l.map (NodeR.repair runsetNames sinkInName sinkName), found) := by
  intro l
  induction l with
  | nil => intro found _; rfl
  | cons node rest ih =>
    intro found hcand
    rw [List.filter_cons] at hcand
    by_cases hz : node.outPorts.length = 0
    · rw [if_pos (by simpa using hz)] at hcand
      cases hcand
    · rw [if_neg (by simpa using hz)] at hcand
      show (if node.outPorts.length = 0 then _ else _) = _
      rw [if_neg hz, ih found hcand]
      rfl

lemma reconnectNodes_second_candidate_fails (runsetNames : List String)
    (sinkInName sinkName : String) :
    ∀ (l : List NodeR) (d : String),
    1 ≤ (l.filter (fun n => n.outPorts.length = 0)).length →
    ∃ e, reconnectNodes runsetNames sinkInName sinkName l (some d) = .error e := by
  intro l
  induction l with
  | nil =>
    intro d hlen
    simp at hlen
  | cons node rest ih =>
    intro d hlen
    by_cases hz : node.outPorts.length = 0
    · refine ⟨"Found more than one process without out-ports", ?_⟩
      show (if node.outPorts.length = 0 then _ else _) = _
      rw [if_pos hz]
    · rw [List.filter_cons, if_neg (by simpa using hz)] at hlen
      obtain ⟨e, he⟩ := ih d hlen
      refine ⟨e, ?_⟩
      show (if node.outPorts.length = 0 then _ else _) = _
      rw [if_neg hz, he]

lemma reconnectNodes_two_candidates_fail (runsetNames : List String)
    (sinkInName sinkName : String) :
    ∀ (l : List NodeR) (found : Option String),
    2 ≤ (l.filter (fun n => n.outPorts.length = 0)).length →
    ∃ e, reconnectNodes runsetNames sinkInName sinkName l found = .error e := by
  intro l
  induction l with
  | nil =>
    intro found hlen
    simp at hlen
  | cons node rest ih =>
    intro found hlen
    by_cases hz : node.outPorts.length = 0
    · rw [List.filter_cons, if_pos (by simpa using hz)] at hlen
      cases found with
      | some d =>
        refine ⟨"Found more than one process without out-ports", ?_⟩
        show (if node.outPorts.length = 0 then _ else _) = _
        rw [if_pos hz]
      | none =>
        simp only [List.length_cons] at hlen
        obtain ⟨e, he⟩ := reconnectNodes_second_candidate_fails runsetNames
          sinkInName sinkName rest node.name (by omega)
        refine ⟨e, ?_⟩
        show (if node.outPorts.length = 0 then _ else _) = _
        rw [if_pos hz]
        simp only [he]
    · rw [List.filter_cons, if_neg (by simpa using hz)] at hlen
      obtain ⟨e, he⟩ := ih found hlen
      refine ⟨e, ?_⟩
      show (if node.outPorts.length = 0 then _ else _) = _
      rw [if_neg hz, he]

lemma reconnectNodes_one_candidate (runsetNames : List String)
    (sinkInName sinkName : String) :
    ∀ (l : List NodeR) (c : NodeR),
    l.filter (fun n => n.outPorts.length = 0) = [c] →
    reconnectNodes runsetNames sinkInName sinkName l none =
      .ok (l.map (NodeR.repair runsetNames sinkInName sinkName), some c.name) := by
  intro l
  induction l with
  | nil =>
    intro c hcand
    cases hcand
  | cons node rest ih =>
    intro c hcand
    rw [List.filter_cons] at hcand
    by_cases hz : node.outPorts.length = 0
    · rw [if_pos (by simpa using hz)] at hcand
      obtain ⟨hc, hrest⟩ := List.cons.inj hcand
      show (if node.outPorts.length = 0 then _ else _) = _
      rw [if_pos hz]
      rw [reconnectNodes_no_candidate runsetNames sinkInName sinkName rest
        (some node.name) hrest]
      rw [hc]
      rfl
    · rw [if_neg (by simpa using hz)] at hcand
      show (if node.outPorts.length = 0 then _ else _) = _
      rw [if_neg hz, ih c hcand]
      rfl

lemma reconnectDeadEnd_one_candidate (net : NetworkR) (runset : List NodeR)
    (c : NodeR) (hc : runset.filter (fun n => n.outPorts.length = 0) = [c])
    (hlen : 1 < runset.length) :
    net.reconnectDeadEndConnections runset =
      .ok ({ net with
             driverName := c.name,
             procs := net.procs.filter (fun (n : NodeR) => n.name ≠ c.name) },
           runset.map (NodeR.repair (runset.map (fun n => n.name))
             net.sinkInName net.sinkName),
           some c.name) := by
  unfold NetworkR.reconnectDeadEndConnections
  rw [reconnectNodes_one_candidate _ _ _ runset c hc]
  dsimp only
  rw [if_pos hlen]

lemma reconnectDeadEnd_no_candidate (net : NetworkR) (runset : List NodeR)
    (hc : runset.filter (fun n => n.outPorts.length = 0) = []) :
    net.reconnectDeadEndConnections runset =
      .ok (net,
           runset.map (NodeR.repair (runset.map (fun n => n.name))
             net.sinkInName net.sinkName),
           none) := by
  unfold NetworkR.reconnectDeadEndConnections
  rw [reconnectNodes_no_candidate _ _ _ runset none hc]

/-- C3: during topology repair of a run-set, a second node with zero
out-ports is a fatal ambiguous-driver failure; with exactly one such
node and a run-set of more than one member, that node is elected
driver and removed from the persistent node registry `net.procs`. -/
theorem reconnect_ambiguous_or_elects_driver (net : NetworkR) (runset : List NodeR) :
    (2 ≤ (runset.filter (fun n => n.outPorts.length = 0)).length →
      ∃ e, net.reconnectDeadEndConnections runset = .error e) ∧
    (∀ c, runset.filter (fun n => n.outPorts.length = 0) = [c] →
      1 < runset.length →
      ∃ net' repaired,
        net.reconnectDeadEndConnections runset = .ok (net', repaired, some c.name) ∧
        net'.driverName = c.name ∧
        net'.procs = net.procs.filter (fun (n : NodeR) => n.name ≠ c.name) ∧
        ∀ n ∈ net'.procs, n.name ≠ c.name) := by
  constructor
  · intro h2
    obtain ⟨e, he⟩ := reconnectNodes_two_candidates_fail
      (runset.map (fun n => n.name)) net.sinkInName net.sinkName runset none h2
    refine ⟨e, ?_⟩
    unfold NetworkR.reconnectDeadEndConnections
    rw [he]
  · intro c hc hlen
    refine ⟨_, _, reconnectDeadEnd_one_candidate net runset c hc hlen, rfl, rfl, ?_⟩
    intro n hn
    have := (List.mem_filter.mp hn).2
    simpa using this

/-- Witness for C3 at a three-node run set whose only zero-out-port
node is `C`: the repair elects `C` as driver and removes it from the
registry; duplicating the candidate makes the same run set fail. -/
theorem reconnect_ambiguous_or_elects_driver_witness :
    (∃ e, (NetworkR.mk
        [NodeR.mk "C" [] [], NodeR.mk "D" [] []] "s" "s" "s.in").reconnectDeadEndConnections
        [NodeR.mk "C" [] [], NodeR.mk "D" [] []] = .error e) ∧
    (∃ net' repaired,
      (NetworkR.mk
        [NodeR.mk "A" [] [OutPortR.mk "A.out" [("C.in", "C")] true],
         NodeR.mk "C" [InPortR.mk "C.in" true] []] "s" "s" "s.in").reconnectDeadEndConnections
        [NodeR.mk "A" [] [OutPortR.mk "A.out" [("C.in", "C")] true],
         NodeR.mk "C" [InPortR.mk "C.in" true] []] =
        .ok (net', repaired, some "C") ∧
      net'.driverName = "C" ∧
      net'.procs = (NetworkR.mk
        [NodeR.mk "A" [] [OutPortR.mk "A.out" [("C.in", "C")] true],
         NodeR.mk "C" [InPortR.mk "C.in" true] []] "s" "s" "s.in").procs.filter
          (fun (n : NodeR) => n.name ≠ "C") ∧
      ∀ n ∈ net'.procs, n.name ≠ "C") := by
  constructor
  · exact (reconnect_ambiguous_or_elects_driver
      (NetworkR.mk [NodeR.mk "C" [] [], NodeR.mk "D" [] []] "s" "s" "s.in")
      [NodeR.mk "C" [] [], NodeR.mk "D" [] []]).1 (by decide)
  · exact (reconnect_ambiguous_or_elects_driver
      (NetworkR.mk
        [NodeR.mk "A" [] [OutPortR.mk "A.out" [("C.in", "C")] true],
         NodeR.mk "C" [InPortR.mk "C.in" true] []] "s" "s" "s.in")
      [NodeR.mk "A" [] [OutPortR.mk "A.out" [("C.in", "C")] true],
       NodeR.mk "C" [InPortR.mk "C.in" true] []]).2
      (NodeR.mk "C" [InPortR.mk "C.in" true] []) (by decide) (by decide)

lemma map_name_repair (a : List String) (b c : String) (l : List NodeR) :
    (l.map (NodeR.repair a b c)).map (fun (n : NodeR) => n.name) =
      l.map (fun (n : NodeR) => n.name) := by
  induction l with
  | nil => rfl
  | cons hd tl ih =>
    simp only [List.map_cons]
    rw [ih]
    rfl

lemma map_name_filter (l : List NodeR) (d : String) :
    (l.filter (fun (n : NodeR) => n.name ≠ d)).map (fun (n : NodeR) => n.name) =
      (l.map (fun (n : NodeR) => n.name)).filter (fun x => x ≠ d) := by
  induction l with
  | nil => rfl
  | cons hd tl ih =>
    rw [List.map_cons, List.filter_cons, List.filter_cons]
    by_cases h : hd.name = d
    · rw [if_neg (by simpa using h), if_neg (by simpa using h)]
      exact ih
    · rw [if_pos (by simpa using h), if_pos (by simpa using h), List.map_cons, ih]

/-- C2 counterexample: a `RunToProcs`-style run (the run-set map is
built by the caller, not the registry itself) on the two-node network
`A -> B`, where `B` has no out-ports.  `B` is elected driver and
deleted from `net.procs`, but the loop in `runProcs` iterates the map
it was passed, which still holds `B`: the schedule starts background
workers for *both* `A` and `B` and then also runs `B` synchronously as
the driver, so `B` is scheduled both as a background worker and as the
Driver. -/
theorem runToProcs_driver_double_scheduled_cex :
    (NetworkR.mk
        [NodeR.mk "A" [] [OutPortR.mk "A.out" [("B.in", "B")] true],
         NodeR.mk "B" [InPortR.mk "B.in" true] []]
        "net_sink" "net_sink" "net_sink.in").runToProcsWith
        [NodeR.mk "A" [] [OutPortR.mk "A.out" [("B.in", "B")] true],
         NodeR.mk "B" [InPortR.mk "B.in" true] []] =
      .ok (RunSchedule.mk ["A", "B"] "B") ∧
    "B" ∈ ["A", "B"] := by
  exact ⟨by rfl, by decide⟩

/-- C2 amended: for a run triggered through `Run()` — where the map
passed to `runProcs` is the registry `net.procs` itself — on a
registry of more than one node whose names are distinct and distinct
from the initial driver, exactly one background worker is started per
run-set node except the Driver, and the Driver (which then runs
synchronously, the call returning after its `Run()` returns) is not
among the workers.  In `RunToProcs`-triggered runs (a separately
built run-set map) and in single-node runs, an elected Driver stays
in the iterated map and is additionally started as a background
worker (see the counterexample). -/
theorem run_schedules_one_worker_per_node_except_driver
    (net : NetworkR) (sched : RunSchedule)
    (hnd : (net.procs.map (fun (n : NodeR) => n.name)).Nodup)
    (hlen : 1 < net.procs.length)
    (hdrv : net.driverName ∉ net.procs.map (fun (n : NodeR) => n.name))
    (hrun : net.run = .ok sched) :
    sched.workers =
      (net.procs.map (fun (n : NodeR) => n.name)).filter (fun x => x ≠ sched.driver) ∧
    sched.driver ∉ sched.workers ∧
    sched.workers.Nodup := by
  rcases hcand : net.procs.filter (fun n => n.outPorts.length = 0) with _ | ⟨c, cs⟩
  · -- no zero-out-port node: the driver stays the sink
    have hrc := reconnectDeadEnd_no_candidate net net.procs hcand
    unfold NetworkR.run NetworkR.runProcs at hrun
    rw [hrc] at hrun
    dsimp only at hrun
    split at hrun
    · cases hrun
    · split at hrun
      · cases hrun
      · have hsched := Except.ok.inj hrun
        have hworkers : sched.workers =
            net.procs.map (fun (n : NodeR) => n.name) := by
          rw [← hsched]
          exact map_name_repair _ _ _ _
        have hdriver : sched.driver = net.driverName := by rw [← hsched]
        refine ⟨?_, ?_, ?_⟩
        · rw [hworkers, hdriver]
          symm
          apply List.filter_eq_self.mpr
          intro x hx
          simp only [decide_eq_true_eq]
          intro hxe
          exact hdrv (hxe ▸ hx)
        · rw [hworkers, hdriver]
          exact hdrv
        · rw [hworkers]
          exact hnd
  · rcases cs with _ | ⟨c2, cs'⟩
    · -- exactly one zero-out-port node: it is elected and excluded
      have hrc := reconnectDeadEnd_one_candidate net net.procs c hcand hlen
      unfold NetworkR.run NetworkR.runProcs at hrun
      rw [hrc] at hrun
      dsimp only at hrun
      rw [if_pos (show (true = true) ∧ 1 < net.procs.length from ⟨rfl, hlen⟩)] at hrun
      split at hrun
      · cases hrun
      · split at hrun
        · cases hrun
        · have hsched := Except.ok.inj hrun
          have hworkers : sched.workers =
              (net.procs.map (fun (n : NodeR) => n.name)).filter
                (fun x => x ≠ c.name) := by
            rw [← hsched]
            show ((net.procs.map (NodeR.repair _ _ _)).filter
              (fun (n : NodeR) => n.name ≠ c.name)).map (fun (n : NodeR) => n.name) = _
            rw [map_name_filter, map_name_repair]
          have hdriver : sched.driver = c.name := by rw [← hsched]
          refine ⟨by rw [hworkers, hdriver], ?_, ?_⟩
          · rw [hworkers, hdriver]
            intro hmem
            have := (List.mem_filter.mp hmem).2
            simp at this
          · rw [hworkers]
            exact hnd.filter _
    · -- two or more zero-out-port nodes: the run always fails
      exfalso
      have h2 : 2 ≤ (net.procs.filter (fun n => n.outPorts.length = 0)).length := by
        rw [hcand]
        simp
      obtain ⟨e, he⟩ := reconnectNodes_two_candidates_fail
        (net.procs.map (fun n => n.name)) net.sinkInName net.sinkName net.procs none h2
      unfold NetworkR.run NetworkR.runProcs NetworkR.reconnectDeadEndConnections at hrun
      rw [he] at hrun
      cases hrun

/-- Witness for the amended C2 on the two-node network `A -> B` run
through `Run()`: only `A` is a background worker; the driver `B` is
excluded. -/
theorem run_schedules_one_worker_per_node_except_driver_witness :
    (NetworkR.mk
        [NodeR.mk "A" [] [OutPortR.mk "A.out" [("B.in", "B")] true],
         NodeR.mk "B" [InPortR.mk "B.in" true] []]
        "net_sink" "net_sink" "net_sink.in").run =
      .ok (RunSchedule.mk ["A"] "B") ∧
    ((RunSchedule.mk ["A"] "B").workers =
      ([NodeR.mk "A" [] [OutPortR.mk "A.out" [("B.in", "B")] true],
        NodeR.mk "B" [InPortR.mk "B.in" true] []].map
          (fun (n : NodeR) => n.name)).filter
        (fun x => x ≠ (RunSchedule.mk ["A"] "B").driver) ∧
     (RunSchedule.mk ["A"] "B").driver ∉ (RunSchedule.mk ["A"] "B").workers ∧
     (RunSchedule.mk ["A"] "B").workers.Nodup) := by
  refine ⟨by rfl, ?_⟩
  exact run_schedules_one_worker_per_node_except_driver
    (NetworkR.mk
      [NodeR.mk "A" [] [OutPortR.mk "A.out" [("B.in", "B")] true],
       NodeR.mk "B" [InPortR.mk "B.in" true] []]
      "net_sink" "net_sink" "net_sink.in")
    (RunSchedule.mk ["A"] "B")
    (by decide) (by decide) (by decide) (by rfl)

/-! ### Upstream closure and `RunToProcs` (src/network.go lines
342-349 and 455-477)

`upstreamProcsForProc` walks every in-port's (and every parameter
in-port's) remote registry, inserts each remote owner into the result
map, and merges the owner's own upstream set recursively
(`mergeWFMaps` mutates its first argument, so the merge is a union).
Nodes are embedded with, per in-port, the list of owner names of its
connected remote out-ports; the two port families are walked in
sequence, so their concatenation visits exactly the same remote
owners.  Go's unbounded recursion is embedded with fuel; the theorem
below discharges the fuel with a rank function, which is exactly the
acyclicity assumption of the claim. -/

/-- A workflow process as the closure computation sees it: for each
in-port (and each parameter in-port) the owner names of the out-ports
registered in its `RemotePorts`. -/
structure PNode where
  name : String
  inPortRemotes : List (List String)
  inParamPortRemotes : List (List String)
  deriving Repr, DecidableEq

/-- All remote owners seen by the two nested loops of
`upstreamProcsForProc`. -/
def PNode.remoteOwners (n : PNode) : List String :=
  (n.inPortRemotes ++ n.inParamPortRemotes).flatten

/-- `procs[name] = proc`: map insert, a no-op when the key is already
present. -/
def insertName (acc : List String) (x : String) : List String :=
  if acc.contains x then acc else acc ++ [x]

/-- `mergeWFMaps(a, b)` (src/network.go lines 472-477): key-wise
insert of `b` into `a`. -/
def unionNames (a b : List String) : List String :=
  b.foldl insertName a

/-- `upstreamProcsForProc` (src/network.go lines 455-470), with fuel
for the recursion: for every remote owner, insert it and merge its own
upstream set (the owner is looked up among the workflow nodes). -/
def upstreamProcsForProc (g : List PNode) : Nat → PNode → List String
  | 0, _ => []
  | fuel + 1, node =>
    node.remoteOwners.foldl (fun acc r =>
      match g.find? (fun n => n.name == r) with
      | some rn => unionNames (insertName acc r) (upstreamProcsForProc g fuel rn)
      | none => insertName acc r) []

/-- `RunToProcs` (src/network.go lines 342-349): the run set
`procsToRun` is the union over the targets of each target's upstream
set plus the target itself. -/
def runToProcsSet (g : List PNode) (fuel : Nat) (finalProcs : List PNode) :
    List String :=
  finalProcs.foldl (fun acc t =>
    insertName (unionNames acc (upstreamProcsForProc g fuel t)) t.name) []

/-- Specification-side edge: `b` owns an out-port connected to one of
`a`s in-ports or parameter in-ports. -/
def ParentEdge (g : List PNode) (a b : String) : Prop :=
  ∃ n, n ∈ g ∧ n.name = a ∧ b ∈ n.remoteOwners

/-- Specification-side upstream transitive closure: every node
reachable by following in-port (and parameter in-port) connections
upstream, one or more steps. -/
inductive UpstreamReach (g : List PNode) : String → String → Prop where
  | direct : ∀ {a b : String}, ParentEdge g a b → UpstreamReach g a b
  | step : ∀ {a b c : String}, ParentEdge g a b → UpstreamReach g b c →
      UpstreamReach g a c

lemma insertName_mem (acc : List String) (x y : String) :
    y ∈ insertName acc x ↔ y ∈ acc ∨ y = x := by
  unfold insertName
  by_cases h : acc.contains x
  · rw [if_pos h]
    have hx : x ∈ acc := by simpa using h
    constructor
    · exact Or.inl
    · rintro (hy | rfl)
      · exact hy
      · exact hx
  · rw [if_neg h]
    simp

lemma unionNames_mem : ∀ (b a : List String) (x : String),
    x ∈ unionNames a b ↔ x ∈ a ∨ x ∈ b := by
  intro b
  induction b with
  | nil => intro a x; simp [unionNames]
  | cons h t ih =>
    intro a x
    show x ∈ t.foldl insertName (insertName a h) ↔ _
    rw [show t.foldl insertName (insertName a h) = unionNames (insertName a h) t from rfl]
    rw [ih, insertName_mem]
    constructor
    · rintro ((hx | rfl) | hx)
      · exact Or.inl hx
      · exact Or.inr (List.mem_cons_self _ _)
      · exact Or.inr (List.mem_cons_of_mem _ hx)
    · rintro (hx | hx)
      · exact Or.inl (Or.inl hx)
      · rcases List.mem_cons.mp hx with rfl | hx
        · exact Or.inl (Or.inr rfl)
        · exact Or.inr hx

lemma upstreamFold_mem (g : List PNode) (fuel : Nat) :
    ∀ (l acc : List String) (x : String),
    x ∈ l.foldl (fun acc r =>
        match g.find? (fun n => n.name == r) with
        | some rn => unionNames (insertName acc r) (upstreamProcsForProc g fuel rn)
        | none => insertName acc r) acc ↔
      x ∈ acc ∨ ∃ r ∈ l, (x = r ∨
        ∃ rn, g.find? (fun n => n.name == r) = some rn ∧
          x ∈ upstreamProcsForProc g fuel rn) := by
  intro l
  induction l with
  | nil => intro acc x; simp
  | cons r rest ih =>
    intro acc x
    rw [List.foldl_cons, ih]
    have hstep : x ∈ (match g.find? (fun n => n.name == r) with
        | some rn => unionNames (insertName acc r) (upstreamProcsForProc g fuel rn)
        | none => insertName acc r) ↔
        x ∈ acc ∨ (x = r ∨ ∃ rn, g.find? (fun n => n.name == r) = some rn ∧
          x ∈ upstreamProcsForProc g fuel rn) := by
      cases hfind : g.find? (fun n => n.name == r) with
      | none =>
        rw [insertName_mem]
        constructor
        · rintro (hx | rfl)
          · exact Or.inl hx
          · exact Or.inr (Or.inl rfl)
        · rintro (hx | (rfl | ⟨rn, hrn, _⟩))
          · exact Or.inl hx
          · exact Or.inr rfl
          · cases hrn
      | some rn =>
        rw [unionNames_mem, insertName_mem]
        constructor
        · rintro ((hx | rfl) | hx)
          · exact Or.inl hx
          · exact Or.inr (Or.inl rfl)
          · exact Or.inr (Or.inr ⟨rn, rfl, hx⟩)
        · rintro (hx | (rfl | ⟨rn', hrn', hx⟩))
          · exact Or.inl (Or.inl hx)
          · exact Or.inl (Or.inr rfl)
          · cases hrn'
            exact Or.inr hx
    rw [hstep]
    constructor
    · rintro ((hx | hp) | ⟨r', hr', hp'⟩)
      · exact Or.inl hx
      · exact Or.inr ⟨r, List.mem_cons_self _ _, hp⟩
      · exact Or.inr ⟨r', List.mem_cons_of_mem _ hr', hp'⟩
    · rintro (hx | ⟨r', hr', hp'⟩)
      · exact Or.inl (Or.inl hx)
      · rcases List.mem_cons.mp hr' with rfl | hr'
        · exact Or.inl (Or.inr hp')
        · exact Or.inr ⟨r', hr', hp'⟩

lemma upstreamReach_cases (g : List PNode) {a x : String}
    (h : UpstreamReach g a x) :
    ParentEdge g a x ∨ ∃ b, ParentEdge g a b ∧ UpstreamReach g b x := by
  cases h with
  | direct he => exact Or.inl he
  | step he hr => exact Or.inr ⟨_, he, hr⟩

lemma upstreamProcsForProc_mem (g : List PNode) (rank : String → Nat)
    (hnd : (g.map (fun n => n.name)).Nodup)
    (hclosed : ∀ n ∈ g, ∀ r ∈ n.remoteOwners, ∃ rn, rn ∈ g ∧ rn.name = r)
    (hrank : ∀ n ∈ g, ∀ r ∈ n.remoteOwners, rank r < rank n.name) :
    ∀ (fuel : Nat) (node : PNode), node ∈ g → rank node.name < fuel →
    ∀ x, x ∈ upstreamProcsForProc g fuel node ↔ UpstreamReach g node.name x := by
  intro fuel
  induction fuel with
  | zero =>
    intro node _ hr
    omega
  | succ fuel ih =>
    intro node hnode _ x
    show x ∈ node.remoteOwners.foldl _ [] ↔ _
    rw [upstreamFold_mem]
    constructor
    · rintro (hx | ⟨r, hr, hp⟩)
      · cases hx
      rcases hp with rfl | ⟨rn, hfind, hx⟩
      · exact UpstreamReach.direct ⟨node, hnode, rfl, hr⟩
      · have hrng : rn ∈ g := List.mem_of_find?_eq_some hfind
        have hrname : rn.name = r := by
          have := List.find?_some hfind
          simpa using this
        have hlt' : rank rn.name < fuel := by
          rw [hrname]
          have h1 := hrank node hnode r hr
          omega
        have hreach := (ih rn hrng hlt' x).mp hx
        rw [hrname] at hreach
        exact UpstreamReach.step ⟨node, hnode, rfl, hr⟩ hreach
    · intro hreach
      rcases upstreamReach_cases g hreach with hedge | ⟨b, hedge, hrest⟩
      · obtain ⟨n', hn', hname, hown⟩ := hedge
        have hn'eq : n' = node :=
          List.inj_on_of_nodup_map hnd hn' hnode (by rw [hname])
        exact Or.inr ⟨x, hn'eq ▸ hown, Or.inl rfl⟩
      · obtain ⟨n', hn', hname, hown⟩ := hedge
        have hn'eq : n' = node :=
          List.inj_on_of_nodup_map hnd hn' hnode (by rw [hname])
        have hownb : b ∈ node.remoteOwners := hn'eq ▸ hown
        obtain ⟨rb, hrbg, hrbname⟩ := hclosed node hnode b hownb
        have hfs : (g.find? (fun n => n.name == b)).isSome := by
          rw [List.find?_isSome]
          exact ⟨rb, hrbg, by simpa using hrbname⟩
        obtain ⟨rn, hfind⟩ := Option.isSome_iff_exists.mp hfs
        have hrng : rn ∈ g := List.mem_of_find?_eq_some hfind
        have hrname : rn.name = b := by
          have := List.find?_some hfind
          simpa using this
        have hlt' : rank rn.name < fuel := by
          rw [hrname]
          have := hrank node hnode b hownb
          omega
        refine Or.inr ⟨b, hownb, Or.inr ⟨rn, hfind, ?_⟩⟩
        exact (ih rn hrng hlt' x).mpr (hrname ▸ hrest)

lemma runToProcsFold_mem (g : List PNode) (fuel : Nat) :
    ∀ (ts : List PNode) (acc : List String) (x : String),
    x ∈ ts.foldl (fun acc t =>
        insertName (unionNames acc (upstreamProcsForProc g fuel t)) t.name) acc ↔
      x ∈ acc ∨ ∃ t ∈ ts, (x = t.name ∨ x ∈ upstreamProcsForProc g fuel t) := by
  intro ts
  induction ts with
  | nil => intro acc x; simp
  | cons t rest ih =>
    intro acc x
    rw [List.foldl_cons, ih, insertName_mem, unionNames_mem]
    constructor
    · rintro (((hx | hx) | rfl) | ⟨t', ht', hp'⟩)
      · exact Or.inl hx
      · exact Or.inr ⟨t, List.mem_cons_self _ _, Or.inr hx⟩
      · exact Or.inr ⟨t, List.mem_cons_self _ _, Or.inl rfl⟩
      · exact Or.inr ⟨t', List.mem_cons_of_mem _ ht', hp'⟩
    · rintro (hx | ⟨t', ht', hp'⟩)
      · exact Or.inl (Or.inl (Or.inl hx))
      · rcases List.mem_cons.mp ht' with rfl | ht'
        · rcases hp' with rfl | hx
          · exact Or.inl (Or.inr rfl)
          · exact Or.inl (Or.inl (Or.inr hx))
        · exact Or.inr ⟨t', ht', hp'⟩

/-- C6: for an acyclic graph (witnessed by a rank function decreasing
along upstream edges) whose in-port connections all point at
registered nodes, and for any list of target nodes, the run set built
by `RunToProcs` contains exactly the targets and their upstream
transitive closures — no node outside that set, none inside it
omitted. -/
theorem runToProcs_schedules_upstream_closure
    (g : List PNode) (finalProcs : List PNode) (fuel : Nat) (rank : String → Nat)
    (hnd : (g.map (fun n => n.name)).Nodup)
    (hsub : ∀ t ∈ finalProcs, t ∈ g)
    (hclosed : ∀ n ∈ g, ∀ r ∈ n.remoteOwners, ∃ rn, rn ∈ g ∧ rn.name = r)
    (hrank : ∀ n ∈ g, ∀ r ∈ n.remoteOwners, rank r < rank n.name)
    (hfuel : ∀ n ∈ g, rank n.name < fuel)
    (x : String) :
    x ∈ runToProcsSet g fuel finalProcs ↔
      (∃ t ∈ finalProcs, x = t.name) ∨
      (∃ t ∈ finalProcs, UpstreamReach g t.name x) := by
  unfold runToProcsSet
  rw [runToProcsFold_mem]
  constructor
  · rintro (hx | ⟨t, ht, hp⟩)
    · cases hx
    rcases hp with rfl | hx
    · exact Or.inl ⟨t, ht, rfl⟩
    · exact Or.inr ⟨t, ht,
        (upstreamProcsForProc_mem g rank hnd hclosed hrank fuel t (hsub t ht)
          (hfuel t (hsub t ht)) x).mp hx⟩
  · rintro (⟨t, ht, rfl⟩ | ⟨t, ht, hreach⟩)
    · exact Or.inr ⟨t, ht, Or.inl rfl⟩
    · exact Or.inr ⟨t, ht, Or.inr
        ((upstreamProcsForProc_mem g rank hnd hclosed hrank fuel t (hsub t ht)
          (hfuel t (hsub t ht)) x).mpr hreach)⟩

/-- Witness for C6 on the diamond-free chain `A -> B -> C` with a
parameter feeder `P -> B`: running to `C` schedules `A` (and, by the
same theorem applied at each name, `P`, `B` and `C` and nothing
else). -/
theorem runToProcs_schedules_upstream_closure_witness :
    "A" ∈ runToProcsSet
        [PNode.mk "A" [] [], PNode.mk "P" [] [],
         PNode.mk "B" [["A"]] [["P"]], PNode.mk "C" [["B"]] []] 3
        [PNode.mk "C" [["B"]] []] ↔
      (∃ t ∈ [PNode.mk "C" [["B"]] []], "A" = t.name) ∨
      (∃ t ∈ [PNode.mk "C" [["B"]] []],
        UpstreamReach
          [PNode.mk "A" [] [], PNode.mk "P" [] [],
           PNode.mk "B" [["A"]] [["P"]], PNode.mk "C" [["B"]] []] t.name "A") :=
  runToProcs_schedules_upstream_closure
    [PNode.mk "A" [] [], PNode.mk "P" [] [],
     PNode.mk "B" [["A"]] [["P"]], PNode.mk "C" [["B"]] []]
    [PNode.mk "C" [["B"]] []] 3
    (fun s => if s = "C" then 2 else if s = "B" then 1 else 0)
    (by decide) (by decide) (by decide) (by decide) (by decide) "A"

end Flowbase
